import Mathlib

/-!
Shallow embedding of `scripts/prototypical.py` (a Prototypical Network in
TensorFlow) and proofs about it.

Tensors are modelled as curried functions out of `Fin`-indexed axes with
real-valued entries; `tf.reshape` between `[m, n, ...]` and `[m*n, ...]`
is modelled by the row-major index bijection (`flat2` / `unflatten`).
The four convolution, max-pooling and batch-normalization layers and the
flatten layer are third-party framework primitives, so they are kept
abstract: a model carries arbitrary functions on batches for them, with
the batch-normalization layers additionally taking their `training`
argument.  Everything downstream of the encoder (prototypes, distances,
log-softmax, loss, accuracy) is translated operation by operation.
-/

/-- Row-major flat index of the pair `(a, b)` in a `[m, n]`-shaped axis pair,
as produced by `tf.reshape` from `[m, n, ...]` to `[m*n, ...]`. -/
def flat2 {m n : ℕ} (a : Fin m) (b : Fin n) : Fin (m * n) :=
  ⟨a.val * n + b.val, by
    calc a.val * n + b.val < a.val * n + n := Nat.add_lt_add_left b.isLt _
      _ = (a.val + 1) * n := (Nat.succ_mul a.val n).symm
      _ ≤ m * n := Nat.mul_le_mul_right n a.isLt⟩

/-- Row-major reinterpretation of a `[m, n]`-indexed family as a `[m*n]`-indexed
one: the inverse direction of `flat2`, as in `tf.reshape(t, [m*n, ...])`. -/
def unflatten {A : Type} {m n : ℕ} (f : Fin m → Fin n → A) (i : Fin (m * n)) : A :=
  have hn : 0 < n := by
    rcases Nat.eq_zero_or_pos n with h0 | h
    · subst h0
      exact absurd i.isLt (by simp)
    · exact h
  f ⟨i.val / n, (Nat.div_lt_iff_lt_mul hn).mpr i.isLt⟩ ⟨i.val % n, Nat.mod_lt _ hn⟩

/-- Embedding of `calc_euclidian_dists` (lines 9-24): `x` is tiled along a new
axis 1, `y` along a new axis 0, and `tf.reduce_mean` of the squared difference
is taken over axis 2 (the feature axis), i.e. the sum divided by `d`. -/
noncomputable def calc_euclidian_dists {n m d : ℕ}
    (x : Fin n → Fin d → ℝ) (y : Fin m → Fin d → ℝ) : Fin n → Fin m → ℝ :=
  let xt : Fin n → Fin m → Fin d → ℝ := fun i _ k => x i k
  let yt : Fin n → Fin m → Fin d → ℝ := fun _ j k => y j k
  fun i j => (∑ k : Fin d, (xt i j k - yt i j k) ^ 2) / (d : ℝ)

/-- Embedding of `tf.nn.log_softmax` along the last axis: entry `j` of the
output is `v j - log (∑ k, exp (v k))`. -/
noncomputable def log_softmax {n : ℕ} (v : Fin n → ℝ) : Fin n → ℝ :=
  fun j => v j - Real.log (∑ k : Fin n, Real.exp (v k))

/-- Helper for `tf_argmax`: first index of a maximal entry of a list together
with that entry, `none` on the empty list.  On ties the earlier index wins,
matching the first-index convention of the argmax in the source. -/
noncomputable def argmaxAux : List ℝ → Option (ℕ × ℝ)
  | [] => none
  | a :: l =>
    match argmaxAux l with
    | none => some (0, a)
    | some (i, v) => if v > a then some (i + 1, v) else some (0, a)

/-- Embedding of `tf.argmax` over the last axis of a `[.., n]` tensor, applied
to one row: the first index attaining the maximum (0 for an empty row). -/
noncomputable def tf_argmax {n : ℕ} (v : Fin n → ℝ) : ℕ :=
  match argmaxAux (List.ofFn v) with
  | none => 0
  | some p => p.1

/-- Embedding of the `Prototypical` model (lines 27-61).  The convolution,
max-pooling, batch-normalization and flatten layers are framework primitives;
they are modelled as abstract functions on batches of activations (`A` is the
abstract per-image activation type, batches are `Fin N → A`).  Each
batch-normalization layer takes the boolean `training` argument it is called
with.  `dim` is the feature length produced by the flatten layer
(`z_support.shape[-1]` in the source). -/
structure Prototypical (A : Type) where
  dim : ℕ
  conv_layers : Fin 4 → (N : ℕ) → (Fin N → A) → (Fin N → A)
  max_pool_layers : Fin 4 → (N : ℕ) → (Fin N → A) → (Fin N → A)
  batch_norm_layers : Fin 4 → Bool → (N : ℕ) → (Fin N → A) → (Fin N → A)
  flatten_layer : (N : ℕ) → (Fin N → A) → Fin N → Fin dim → ℝ

/-- Embedding of the encoder loop of `Prototypical.call` (lines 76-79 and
87-90): for `i` in `0..3`, apply `conv_layers[i]`, then `max_pool_layers[i]`,
then `batch_norm_layers[i]` with the given `training` argument. -/
def Prototypical.encode {A : Type} (m : Prototypical A) (bn_training : Bool)
    (N : ℕ) (x0 : Fin N → A) : Fin N → A :=
  (List.finRange 4).foldl
    (fun x i => m.batch_norm_layers i bn_training N (m.max_pool_layers i N (m.conv_layers i N x)))
    x0

/-- The local `z_support` of `Prototypical.call` (lines 73-80): the support
tensor reshaped to a `[n_class*n_support, ...]` batch, encoded with
`training=True` at every batch-normalization layer, then flattened. -/
def Prototypical.z_support {A : Type} (m : Prototypical A) {n_class n_support : ℕ}
    (support : Fin n_class → Fin n_support → A) :
    Fin (n_class * n_support) → Fin m.dim → ℝ :=
  m.flatten_layer _ (m.encode true _ (unflatten support))

/-- The local `z_prototypes` of `Prototypical.call` (lines 82-83): `z_support`
reshaped to `[n_class, n_support, dim]` and averaged over the support axis. -/
noncomputable def Prototypical.z_prototypes {A : Type} (m : Prototypical A)
    {n_class n_support : ℕ} (support : Fin n_class → Fin n_support → A) :
    Fin n_class → Fin m.dim → ℝ :=
  fun k dI => (∑ s : Fin n_support, m.z_support support (flat2 k s) dI) / (n_support : ℝ)

/-- The local `z_query` of `Prototypical.call` (lines 85-91): the query tensor
reshaped to a `[n_class*n_query, ...]` batch, encoded with `training=False` at
every batch-normalization layer, then flattened. -/
def Prototypical.z_query {A : Type} (m : Prototypical A) {n_class n_query : ℕ}
    (query : Fin n_class → Fin n_query → A) :
    Fin (n_class * n_query) → Fin m.dim → ℝ :=
  m.flatten_layer _ (m.encode false _ (unflatten query))

/-- The local `dists` of `Prototypical.call` (line 94): pairwise distances
between the query embeddings and the prototypes. -/
noncomputable def Prototypical.dists {A : Type} (m : Prototypical A)
    {n_class n_support n_query : ℕ}
    (support : Fin n_class → Fin n_support → A)
    (query : Fin n_class → Fin n_query → A) :
    Fin (n_class * n_query) → Fin n_class → ℝ :=
  calc_euclidian_dists (m.z_query query) (m.z_prototypes support)

/-- The local `log_p_y` of `Prototypical.call` (lines 97-98): log-softmax of
the negated distances along the prototype axis, reshaped (row-major) to
`[n_class, n_query, n_class]`. -/
noncomputable def Prototypical.log_p_y {A : Type} (m : Prototypical A)
    {n_class n_support n_query : ℕ}
    (support : Fin n_class → Fin n_support → A)
    (query : Fin n_class → Fin n_query → A) :
    Fin n_class → Fin n_query → Fin n_class → ℝ :=
  fun k q => log_softmax (fun j => -(m.dists support query (flat2 k q) j))

/-- The local `y` of `Prototypical.call` (line 66): the tiled class labels,
`y[k][q] = k`. -/
def y_label {n_class n_query : ℕ} : Fin n_class → Fin n_query → ℕ :=
  fun k _ => k.val

/-- The local `y_onehot` of `Prototypical.call` (line 67): `tf.one_hot(y,
n_class)` cast to float. -/
def y_onehot {n_class n_query : ℕ} : Fin n_class → Fin n_query → Fin n_class → ℝ :=
  fun k q j => if j.val = y_label k q then 1 else 0

/-- The local `loss` of `Prototypical.call` (line 100): the negated mean over
the flattened `[n_class*n_query]` axis of the per-query sums
`∑ j, y_onehot * log_p_y`. -/
noncomputable def Prototypical.loss {A : Type} (m : Prototypical A)
    {n_class n_support n_query : ℕ}
    (support : Fin n_class → Fin n_support → A)
    (query : Fin n_class → Fin n_query → A) : ℝ :=
  -((∑ k : Fin n_class, ∑ q : Fin n_query, ∑ j : Fin n_class,
      y_onehot k q j * m.log_p_y support query k q j) / ((n_class * n_query : ℕ) : ℝ))

/-- The locals `eq` and `acc` of `Prototypical.call` (lines 101-104): the mean
over all `[n_class, n_query]` positions of the indicator that the argmax of
`log_p_y` along the last axis equals the label `y`. -/
noncomputable def Prototypical.acc {A : Type} (m : Prototypical A)
    {n_class n_support n_query : ℕ}
    (support : Fin n_class → Fin n_support → A)
    (query : Fin n_class → Fin n_query → A) : ℝ :=
  (∑ k : Fin n_class, ∑ q : Fin n_query,
      if tf_argmax (m.log_p_y support query k q) = y_label k q then (1 : ℝ) else 0) /
    ((n_class * n_query) : ℝ)

/-- Embedding of `Prototypical.call` (lines 63-105): returns the pair
`(loss, acc)`.  The `training` parameter of the source method is accepted but
never read in the body (the batch-normalization calls hardcode `training=True`
on the support path and `training=False` on the query path). -/
noncomputable def Prototypical.call {A : Type} (m : Prototypical A)
    {n_class n_support n_query : ℕ}
    (support : Fin n_class → Fin n_support → A)
    (query : Fin n_class → Fin n_query → A)
    (training : Bool) : ℝ × ℝ :=
  (m.loss support query, m.acc support query)

/-- Embedding of `Prototypical.save` (lines 107-117).  The whole body of the
source method is `self.save(model_path)`: an unconditional recursive call to
itself with the same argument.  The extra `ℕ` parameter models the finite call
stack; `none` stands for the stack being exhausted without the call ever
returning. -/
def Prototypical.save {A : Type} (m : Prototypical A) (model_path : String) :
    ℕ → Option Unit
  | 0 => none
  | fuel + 1 => m.save model_path fuel

/-- Dynamic-shape variant of `Prototypical.call` in which the query tensor's
leading dimension `cq` need not equal the support's `n_class`.  It models the
`tf.reshape(query, [n_class*n_query, w, h, c])` at line 85: the reshape
succeeds iff the total element count is preserved (the trailing image
dimensions are the same on both sides and cancel, leaving
`cq * n_query = n_class * n_query`), in which case the rows are reinterpreted
in row-major order and the rest of the forward pass proceeds; a count mismatch
raises a shape error, modelled by `none`. -/
noncomputable def Prototypical.callDyn {A : Type} (m : Prototypical A)
    {n_class n_support cq n_query : ℕ}
    (support : Fin n_class → Fin n_support → A)
    (query : Fin cq → Fin n_query → A)
    (training : Bool) : Option (ℝ × ℝ) :=
  if h : cq * n_query = n_class * n_query then
    some (m.call support (fun k q => unflatten query (Fin.cast h.symm (flat2 k q))) training)
  else
    none

/-- A concrete model instance with identity framework layers and a constant
flatten layer, used as a fixture in concrete evaluations. -/
def trivialModel : Prototypical Unit where
  dim := 1
  conv_layers := fun _ _ x => x
  max_pool_layers := fun _ _ x => x
  batch_norm_layers := fun _ _ _ x => x
  flatten_layer := fun _ _ _ _ => 0

/-- A concrete path argument for `Prototypical.save`. -/
def modelPath : String := "model.h5"

/-- A concrete support tensor with 1 class and 1 support example. -/
def supportEx : Fin 1 → Fin 1 → Unit := fun _ _ => ()

/-- A concrete query tensor whose leading dimension (2) differs from the
support's class count (1). -/
def queryEx : Fin 2 → Fin 1 → Unit := fun _ _ => ()

/-- Multiplying a row of `log_p_y` by the one-hot vector of class `k` and
summing selects the entry at the true class `k` (line 100 of the source). -/
lemma sum_y_onehot_mul {n_class n_query : ℕ} (k : Fin n_class) (q : Fin n_query)
    (f : Fin n_class → ℝ) : (∑ j : Fin n_class, y_onehot k q j * f j) = f k := by
  have h1 : ∀ j : Fin n_class, y_onehot k q j = if j = k then (1 : ℝ) else 0 := by
    intro j
    simp [y_onehot, y_label, Fin.val_eq_val]
  calc (∑ j : Fin n_class, y_onehot k q j * f j)
      = ∑ j : Fin n_class, (if j = k then f j else 0) := by
        refine Finset.sum_congr rfl fun j _ => ?_
        rw [h1 j]
        by_cases hj : j = k <;> simp [hj]
    _ = f k := by simp

/-- Every entry of a log-softmax output is nonpositive: each logit is at most
the log of the sum of the exponentials. -/
lemma log_softmax_nonpos {n : ℕ} (v : Fin n → ℝ) (j : Fin n) : log_softmax v j ≤ 0 := by
  have hle : Real.exp (v j) ≤ ∑ k : Fin n, Real.exp (v k) :=
    Finset.single_le_sum (fun k _ => (Real.exp_pos (v k)).le) (Finset.mem_univ j)
  have hlog : v j ≤ Real.log (∑ k : Fin n, Real.exp (v k)) := by
    rw [← Real.log_exp (v j)]
    exact Real.log_le_log (Real.exp_pos (v j)) hle
  simpa [log_softmax] using sub_nonpos.mpr hlog

/-- `Prototypical.save` consumes all its fuel without returning: the body is a
bare recursive self-call. -/
lemma save_eq_none {A : Type} (m : Prototypical A) (p : String) :
    ∀ fuel : ℕ, m.save p fuel = none
  | 0 => rfl
  | fuel + 1 => save_eq_none m p fuel

/-- C1: for every episode, the loss returned by `Prototypical.call` equals the
negative mean, over all `n_class * n_query` query examples, of the log-softmax
probability (over the prototype axis, with negated distances as logits)
assigned to the query's true class, where query `q` in class block `k` has
true class `k`. -/
theorem call_loss_is_neg_mean_true_class_log_prob {A : Type} (m : Prototypical A)
    {n_class n_support n_query : ℕ}
    (support : Fin n_class → Fin n_support → A)
    (query : Fin n_class → Fin n_query → A) (training : Bool) :
    (m.call support query training).1 =
      -((∑ k : Fin n_class, ∑ q : Fin n_query,
          log_softmax (fun j => -(m.dists support query (flat2 k q) j)) k) /
        ((n_class * n_query : ℕ) : ℝ)) := by
  have h : ∀ (k : Fin n_class) (q : Fin n_query),
      (∑ j : Fin n_class, y_onehot k q j * m.log_p_y support query k q j) =
        m.log_p_y support query k q k := fun k q => sum_y_onehot_mul k q _
  simp only [Prototypical.call, Prototypical.loss]
  rw [Finset.sum_congr rfl fun k _ => Finset.sum_congr rfl fun q _ => h k q]
  rfl

/-- C2: the distance matrix of the forward pass has shape
`[n_class*n_query, n_class]` (the type of `Prototypical.dists`), and its entry
`(i, j)` equals the mean -- the sum divided by `dim`, not the bare sum -- over
the `dim` feature dimensions of the squared difference between query embedding
`i` and prototype `j`. -/
theorem dists_entry_is_mean_sq_diff {A : Type} (m : Prototypical A)
    {n_class n_support n_query : ℕ}
    (support : Fin n_class → Fin n_support → A)
    (query : Fin n_class → Fin n_query → A)
    (i : Fin (n_class * n_query)) (j : Fin n_class) :
    m.dists support query i j =
      (∑ k : Fin m.dim, (m.z_query query i k - m.z_prototypes support j k) ^ 2) /
        (m.dim : ℝ) := rfl

/-- C3: the accuracy returned by `Prototypical.call` equals the fraction of
the `n_class * n_query` query examples whose argmax (first index on ties) of
the per-class log-probabilities equals the true class index; consequently it
is `c / (n_class * n_query)` for a count `c ≤ n_class * n_query` and lies in
`[0, 1]`. -/
theorem call_acc_is_fraction_argmax_correct {A : Type} (m : Prototypical A)
    {n_class n_support n_query : ℕ}
    (support : Fin n_class → Fin n_support → A)
    (query : Fin n_class → Fin n_query → A) (training : Bool) :
    (m.call support query training).2 =
      (((Finset.univ.filter fun p : Fin n_class × Fin n_query =>
          tf_argmax (m.log_p_y support query p.1 p.2) = p.1.val).card : ℕ) : ℝ) /
        ((n_class : ℝ) * (n_query : ℝ)) ∧
    (Finset.univ.filter fun p : Fin n_class × Fin n_query =>
        tf_argmax (m.log_p_y support query p.1 p.2) = p.1.val).card ≤ n_class * n_query ∧
    0 ≤ (m.call support query training).2 ∧
    (m.call support query training).2 ≤ 1 := by
  have hcard : (Finset.univ.filter fun p : Fin n_class × Fin n_query =>
      tf_argmax (m.log_p_y support query p.1 p.2) = p.1.val).card ≤ n_class * n_query := by
    refine le_trans (Finset.card_filter_le _ _) ?_
    simp [Finset.card_univ]
  have key : (m.call support query training).2 =
      (((Finset.univ.filter fun p : Fin n_class × Fin n_query =>
          tf_argmax (m.log_p_y support query p.1 p.2) = p.1.val).card : ℕ) : ℝ) /
        ((n_class : ℝ) * (n_query : ℝ)) := by
    simp only [Prototypical.call, Prototypical.acc, y_label]
    congr 1
    rw [← Finset.sum_product']
    rw [Finset.univ_product_univ]
    rw [Finset.sum_boole]
  refine ⟨key, hcard, ?_, ?_⟩
  · rw [key]
    positivity
  · rw [key]
    apply div_le_one_of_le₀
    · have h1 : ((Finset.univ.filter fun p : Fin n_class × Fin n_query =>
          tf_argmax (m.log_p_y support query p.1 p.2) = p.1.val).card : ℝ) ≤
          ((n_class * n_query : ℕ) : ℝ) := Nat.cast_le.mpr hcard
      push_cast at h1
      exact h1
    · positivity

/-- C4: the `training` flag passed to `Prototypical.call` is never consulted
(the batch-normalization layers are hardcoded to training mode on the support
path and inference mode on the query path), so the returned (loss, accuracy)
pair is the same for any two values of the flag on the same inputs and model
state. -/
theorem call_ignores_training_flag {A : Type} (m : Prototypical A)
    {n_class n_support n_query : ℕ}
    (support : Fin n_class → Fin n_support → A)
    (query : Fin n_class → Fin n_query → A) :
    ∀ t₁ t₂ : Bool, m.call support query t₁ = m.call support query t₂ :=
  fun _ _ => rfl

/-- C5: for every path argument and every amount of stack (fuel),
`Prototypical.save` never returns normally: its body is an unconditional
recursive self-call, so it exhausts the stack instead of serializing the
weights. -/
theorem save_always_exhausts_stack {A : Type} (m : Prototypical A)
    (model_path : String) (fuel : ℕ) :
    m.save model_path fuel = none :=
  save_eq_none m model_path fuel

/-- C6: evaluating the code at the concrete failing input: `save` on the path
"model.h5" with a large concrete stack budget still fails to return, so the
save-then-load round trip can never reproduce the model's outputs -- no
weights file is ever written. -/
theorem save_roundtrip_step_fails :
    trivialModel.save modelPath 1000000 = none :=
  save_eq_none trivialModel modelPath 1000000

/-- C8: if the query tensor's leading dimension differs from the support's
`n_class` (and `n_query` is positive, as in any real episode), the forward
pass fails with a shape error at the query reshape rather than returning a
result. -/
theorem callDyn_mismatched_n_class_errors {A : Type} (m : Prototypical A)
    {n_class n_support cq n_query : ℕ}
    (support : Fin n_class → Fin n_support → A)
    (query : Fin cq → Fin n_query → A) (training : Bool)
    (hq : 0 < n_query) (hne : cq ≠ n_class) :
    m.callDyn support query training = none := by
  simp only [Prototypical.callDyn]
  exact dif_neg fun h => hne (Nat.eq_of_mul_eq_mul_right hq h)

/-- Witness for C8: a support tensor with 1 class and a query tensor with
leading dimension 2 make the forward pass fail. -/
theorem callDyn_mismatched_n_class_errors_witness :
    0 < 1 ∧ (2 : ℕ) ≠ 1 ∧ trivialModel.callDyn supportEx queryEx false = none :=
  ⟨by decide, by decide,
    callDyn_mismatched_n_class_errors trivialModel supportEx queryEx false
      (by decide) (by decide)⟩

/-- C9: on every episode the loss returned by `Prototypical.call` is
non-negative: it is the negated mean of log-probabilities of a
log-softmax-normalized distribution, each of which is at most zero. -/
theorem call_loss_nonneg {A : Type} (m : Prototypical A)
    {n_class n_support n_query : ℕ}
    (support : Fin n_class → Fin n_support → A)
    (query : Fin n_class → Fin n_query → A) (training : Bool) :
    0 ≤ (m.call support query training).1 := by
  have hS : (∑ k : Fin n_class, ∑ q : Fin n_query, ∑ j : Fin n_class,
      y_onehot k q j * m.log_p_y support query k q j) ≤ 0 := by
    refine Finset.sum_nonpos fun k _ => Finset.sum_nonpos fun q _ => ?_
    rw [sum_y_onehot_mul]
    exact log_softmax_nonpos _ _
  have hdiv : (∑ k : Fin n_class, ∑ q : Fin n_query, ∑ j : Fin n_class,
      y_onehot k q j * m.log_p_y support query k q j) /
        ((n_class * n_query : ℕ) : ℝ) ≤ 0 :=
    div_nonpos_iff.mpr (Or.inr ⟨hS, Nat.cast_nonneg _⟩)
  simp only [Prototypical.call, Prototypical.loss]
  exact neg_nonneg.mpr hdiv

/-- C10: every entry of `calc_euclidian_dists x y` (feature dimension at least
1) is non-negative, entry `(i, j)` is zero exactly when row `x i` equals row
`y j`, and the diagonal of `calc_euclidian_dists z z` is identically zero. -/
theorem calc_euclidian_dists_nonneg_zero_iff {n m d : ℕ} (hd : 0 < d)
    (x : Fin n → Fin d → ℝ) (y : Fin m → Fin d → ℝ) :
    (∀ i j, 0 ≤ calc_euclidian_dists x y i j) ∧
    (∀ i j, calc_euclidian_dists x y i j = 0 ↔ x i = y j) ∧
    (∀ (z : Fin n → Fin d → ℝ) (i : Fin n), calc_euclidian_dists z z i i = 0) := by
  have hd0 : ((d : ℕ) : ℝ) ≠ 0 := Nat.cast_ne_zero.mpr hd.ne'
  refine ⟨fun i j => ?_, fun i j => ?_, fun z i => ?_⟩
  · exact div_nonneg (Finset.sum_nonneg fun k _ => sq_nonneg _) (Nat.cast_nonneg d)
  · simp only [calc_euclidian_dists]
    rw [div_eq_zero_iff]
    constructor
    · rintro (hs | hdz)
      · have h := (Finset.sum_eq_zero_iff_of_nonneg
          (fun k _ => sq_nonneg (x i k - y j k))).mp hs
        funext k
        have hk := h k (Finset.mem_univ k)
        have hk0 : x i k - y j k = 0 :=
          (pow_eq_zero_iff (two_ne_zero)).mp hk
        linarith [hk0]
      · exact absurd hdz hd0
    · intro hxy
      left
      rw [hxy]
      simp
  · simp only [calc_euclidian_dists]
    simp [sub_self]

/-- A concrete all-zero embedding row matrix with one row and feature
dimension 1. -/
def zeroRow : Fin 1 → Fin 1 → ℝ := fun _ _ => 0

/-- Witness for C10: at feature dimension 1 and the all-zero row, the three
conjuncts hold. -/
theorem calc_euclidian_dists_nonneg_zero_iff_witness :
    0 < 1 ∧
    ((∀ i j, 0 ≤ calc_euclidian_dists zeroRow zeroRow i j) ∧
      (∀ i j, calc_euclidian_dists zeroRow zeroRow i j = 0 ↔ zeroRow i = zeroRow j) ∧
      (∀ (z : Fin 1 → Fin 1 → ℝ) (i : Fin 1), calc_euclidian_dists z z i i = 0)) :=
  ⟨by decide, calc_euclidian_dists_nonneg_zero_iff (by decide) zeroRow zeroRow⟩
